import Mathlib

/-!
Shallow embedding of the cake build engine (src/cake/engine.py and
src/cake/library/shell.py) and proofs about its dependency-tracking,
variant-registry, and script-inclusion logic.

Conventions of the embedding:
* Python dicts are association lists queried with `lookupA` (first match wins,
  so an insert is a cons at the front).
* Exceptions are modelled with `Except`/`Option`: an `EnvironmentError` that
  the code raises and may catch is an explicit `Except.error`; an uncaught
  crash (failed `assert`, `TypeError` on `len(None)`) makes the modelled
  function return `none`.
* The build `args` value is opaque in the Python code (compared with `!=` and
  serialized with `repr`); it is a type parameter `α` with decidable equality,
  and `repr` is a function parameter `reprA`.
* File timestamps are `Int`; the float `mktime`/`fmod` conversion in
  `Engine.getTimestamp` is abstracted into the stamp the filesystem reports,
  since the engine only ever compares stamps for equality.
-/

namespace Cake

/-- Association-list lookup mirroring a Python dict read: first match wins. -/
def lookupA {κ β : Type} [DecidableEq κ] : List (κ × β) → κ → Option β
  | [], _ => none
  | (k, v) :: rest, k' => if k' = k then some v else lookupA rest k'

/-- A filesystem entry: its modification stamp and its byte contents. -/
structure FileData where
  mtime : Int
  content : List Nat
deriving DecidableEq

/-- The dependency record for one build step (class `DependencyInfo`,
engine.py).  `__init__` takes only `targets` and `args`; the three dependency
fields start out as Python `None`, hence `Option`. -/
structure DependencyInfo (α : Type) where
  version : Nat
  targets : List String
  args : α
  depPaths : Option (List String)
  depTimestamps : Option (List Int)
  depDigests : Option (List (List Nat))
deriving DecidableEq

/-- `DependencyInfo.VERSION = 3` in engine.py. -/
def DependencyInfo.VERSION : Nat := 3

/-- The constructor `DependencyInfo.__init__(self, targets, args)`. -/
def DependencyInfo.make {α : Type} (targets : List String) (args : α) :
    DependencyInfo α :=
  ⟨DependencyInfo.VERSION, targets, args, none, none, none⟩

/-- What a stored `.dep` blob unpickles to: either a genuine `DependencyInfo`
instance or some other value (which `Engine.getDependencyInfo` rejects). -/
inductive Blob (α : Type) where
  | wellFormed (d : DependencyInfo α)
  | notDepInfo
deriving DecidableEq

/-- The filesystem: ordinary files, plus the `.dep` record store (keyed by the
full record path `target ++ ".dep"`). -/
structure World (α : Type) where
  files : List (String × FileData)
  deps : List (String × Blob α)
deriving DecidableEq

/-- Modelled from the spec: `cake.filesys.isFile` (cake/filesys.py is not in
src/); per §7 FileSystemError it reports whether a file exists at the path. -/
def isFile {α : Type} (w : World α) (p : String) : Bool :=
  (lookupA w.files p).isSome

/-- The mutable per-`Engine` caches and the `forceBuild` flag (engine.py,
`Engine.__init__`). -/
structure EngineState (α : Type) where
  forceBuild : Bool
  timestampCache : List (String × Int)
  digestCache : List ((String × Int) × List Nat)
  depInfoCache : List (String × DependencyInfo α)
deriving DecidableEq

/-- The two `EnvironmentError` flavours `Engine.getDependencyInfo` can raise:
a missing record file (`open` fails) and `"invalid dependency file"`. -/
inductive EnvErr where
  | missingFile
  | invalidDepRecord
deriving DecidableEq

variable {α : Type} [DecidableEq α]

/-- `Engine.getTimestamp(path)`: consult the timestamp cache, else stat the
file (an absent file makes `os.stat` raise `EnvironmentError`) and cache the
result. -/
def Engine.getTimestamp (w : World α) (st : EngineState α) (path : String) :
    Except Unit (Int × EngineState α) :=
  match lookupA st.timestampCache path with
  | some t => .ok (t, st)
  | none =>
    match lookupA w.files path with
    | none => .error ()
    | some fd =>
      .ok (fd.mtime,
        { st with timestampCache := (path, fd.mtime) :: st.timestampCache })

/-- `Engine.updateFileDigestCache(path, timestamp, digest)`. -/
def Engine.updateFileDigestCache (st : EngineState α) (path : String)
    (timestamp : Int) (digest : List Nat) : EngineState α :=
  { st with digestCache := ((path, timestamp), digest) :: st.digestCache }

/-- `Engine.getFileDigest(path)`: timestamp first, then the digest cache keyed
by `(path, timestamp)`, else hash the file contents (`h` stands for the
`cake.hash.sha1` content hasher, which is not in src/; the spec §2 only says
it digests a file's bytes, so it is a function parameter). -/
def Engine.getFileDigest (h : List Nat → List Nat) (w : World α)
    (st : EngineState α) (path : String) :
    Except Unit (List Nat × EngineState α) :=
  match Engine.getTimestamp w st path with
  | .error e => .error e
  | .ok (ts, st1) =>
    match lookupA st1.digestCache (path, ts) with
    | some d => .ok (d, st1)
    | none =>
      match lookupA w.files path with
      | none => .error ()
      | some fd =>
        .ok (h fd.content, Engine.updateFileDigestCache st1 path ts (h fd.content))

/-- `Engine.getDependencyInfo(targetPath)`: memoized load of the record at
`targetPath + ".dep"`; a blob that is not a `DependencyInfo` instance raises
`EnvironmentError("invalid dependency file")` (and is not cached). -/
def Engine.getDependencyInfo (w : World α) (st : EngineState α)
    (targetPath : String) :
    Except EnvErr (DependencyInfo α × EngineState α) :=
  match lookupA st.depInfoCache targetPath with
  | some d => .ok (d, st)
  | none =>
    match lookupA w.deps (targetPath ++ ".dep") with
    | none => .error .missingFile
    | some .notDepInfo => .error .invalidDepRecord
    | some (.wellFormed d) =>
      .ok (d, { st with depInfoCache := (targetPath, d) :: st.depInfoCache })

/-- The dependency-timestamp loop of `Engine.checkDependencyInfo`: the first
changed (or no-longer-stat-able) dependency yields a reason. -/
def Engine.scanDeps (w : World α) :
    List (String × Int) → EngineState α → Option String × EngineState α
  | [], st => (none, st)
  | (path, ts) :: rest, st =>
    match Engine.getTimestamp w st path with
    | .error _ => (some ("\x27" ++ path ++ "\x27 no longer exists"), st)
    | .ok (t, st1) =>
      if t ≠ ts then
        (some ("\x27" ++ path ++ "\x27 has changed since last build"), st1)
      else
        Engine.scanDeps w rest st1

/-- `Engine.checkDependencyInfo(targetPath, args)` (engine.py lines 408-455).
`none` is an uncaught crash (the `assert` on the parallel lists failing, or
`len(None)` when the dependency fields were never filled in). -/
def Engine.checkDependencyInfo (reprA : α → String) (w : World α)
    (st : EngineState α) (targetPath : String) (args : α) :
    Option ((Option (DependencyInfo α) × Option String) × EngineState α) :=
  match Engine.getDependencyInfo w st targetPath with
  | .error _ =>
    some ((none, some ("\x27" ++ targetPath ++ ".dep\x27 doesn\x27t exist")), st)
  | .ok (di, st1) =>
    if di.version ≠ DependencyInfo.VERSION then
      some ((none, some ("\x27" ++ targetPath ++ ".dep\x27 version has changed")), st1)
    else if st1.forceBuild then
      some ((some di, some "rebuild has been forced"), st1)
    else if args ≠ di.args then
      some ((some di,
        some ("\x27" ++ reprA args ++ "\x27 != \x27" ++ reprA di.args ++ "\x27")), st1)
    else
      match di.targets.find? (fun t => !(isFile w t)) with
      | some t =>
        some ((some di, some ("\x27" ++ t ++ "\x27 doesn\x27t exist")), st1)
      | none =>
        match di.depPaths, di.depTimestamps with
        | some paths, some timestamps =>
          if paths.length = timestamps.length then
            let r := Engine.scanDeps w (paths.zip timestamps) st1
            some ((some di, r.1), r.2)
          else none
        | _, _ => none

/-- The dependency-timestamp loop of `DependencyInfo.isUpToDate`: `false` at
the first changed or missing dependency. -/
def Engine.scanDepsB (w : World α) :
    List (String × Int) → EngineState α → Bool × EngineState α
  | [], st => (true, st)
  | (path, ts) :: rest, st =>
    match Engine.getTimestamp w st path with
    | .error _ => (false, st)
    | .ok (t, st1) =>
      if t ≠ ts then (false, st1) else Engine.scanDepsB w rest st1

/-- `DependencyInfo.isUpToDate(engine, args)` (engine.py lines 537-571).
`none` is an uncaught crash of the `assert` / `len(None)`. -/
def DependencyInfo.isUpToDate (w : World α) (st : EngineState α)
    (di : DependencyInfo α) (args : α) : Option (Bool × EngineState α) :=
  if di.version ≠ DependencyInfo.VERSION then some (false, st)
  else if args ≠ di.args then some (false, st)
  else if (di.targets.find? (fun t => !(isFile w t))).isSome then
    some (false, st)
  else
    match di.depPaths, di.depTimestamps with
    | some paths, some timestamps =>
      if paths.length = timestamps.length then
        some (Engine.scanDepsB w (paths.zip timestamps) st)
      else none
    | _, _ => none

/-- `Engine.storeDependencyInfo(dependencyInfo)` (engine.py lines 481-499):
persist the pickled record at `targets[0] + ".dep"` and register the record in
the in-memory cache under every listed target.  `none` models the `IndexError`
on `targets[0]` for an empty target list. -/
def Engine.storeDependencyInfo (w : World α) (st : EngineState α)
    (di : DependencyInfo α) : Option (World α × EngineState α) :=
  match di.targets with
  | [] => none
  | t0 :: _ =>
    let st1 :=
      { st with depInfoCache :=
          di.targets.foldl (fun c t => (t, di) :: c) st.depInfoCache }
    let w1 := { w with deps := (t0 ++ ".dep", Blob.wellFormed di) :: w.deps }
    some (w1, st1)

/-- Python truthiness of an optional list (`None` and `[]` are falsy). -/
def isTruthy {β : Type} : Option (List β) → Bool
  | none => false
  | some l => !l.isEmpty

/-- The seeding loop of `DependencyInfo.primeFileDigestCache`. -/
def Engine.primeLoop :
    List (String × Int × List Nat) → EngineState α → EngineState α
  | [], st => st
  | (p, t, d) :: rest, st =>
    Engine.primeLoop rest (Engine.updateFileDigestCache st p t d)

/-- `DependencyInfo.primeFileDigestCache(engine)`: when both `depDigests` and
`depTimestamps` are truthy, assert the parallel-list lengths and seed the
engine digest cache; `none` is a crash of the asserts (or `len(None)`). -/
def DependencyInfo.primeFileDigestCache (di : DependencyInfo α)
    (st : EngineState α) : Option (EngineState α) :=
  if isTruthy di.depDigests && isTruthy di.depTimestamps then
    match di.depPaths, di.depTimestamps, di.depDigests with
    | some paths, some timestamps, some digests =>
      if digests.length = paths.length ∧ timestamps.length = paths.length then
        some (Engine.primeLoop (paths.zip (timestamps.zip digests)) st)
      else none
    | _, _, _ => none
  else some st

/-- Encoding of a path or `repr` string into hasher input bytes
(`codecs.utf_8_encode`, abstracted to code points). -/
def encodeStr (s : String) : List Nat :=
  s.toList.map Char.toNat

/-- The per-dependency loop of `DependencyInfo.calculateDigest`: extend the
hasher stream with each dependency path and its file digest, threading the
engine state; a failing stat/read propagates (nothing catches it there). -/
def Engine.digestLoop (h : List Nat → List Nat) (w : World α) :
    List String → EngineState α → List Nat →
    Except Unit (List Nat × EngineState α)
  | [], st, acc => .ok (acc, st)
  | p :: rest, st, acc =>
    match Engine.getFileDigest h w st p with
    | .error e => .error e
    | .ok (d, st1) => Engine.digestLoop h w rest st1 (acc ++ encodeStr p ++ d)

/-- `DependencyInfo.calculateDigest(engine)` (engine.py lines 573-602): prime
the digest cache, then hash each target path, the serialized args, and each
dependency path followed by its (possibly cached) digest.  The outer `Option`
is a crash (priming asserts, or `depPaths` still `None`); the digest of the
accumulated stream is `h` applied to it, `h` being the content hasher. -/
def DependencyInfo.calculateDigest (h : List Nat → List Nat)
    (reprA : α → String) (w : World α) (st : EngineState α)
    (di : DependencyInfo α) :
    Option (Except Unit (List Nat × EngineState α)) :=
  match di.primeFileDigestCache st with
  | none => none
  | some st1 =>
    match di.depPaths with
    | none => none
    | some paths =>
      let acc0 := (di.targets.map encodeStr).flatten ++ encodeStr (reprA di.args)
      some (match Engine.digestLoop h w paths st1 acc0 with
        | .error e => .error e
        | .ok (acc, st2) => .ok (h acc, st2))

/-- A Python value sitting on a variant axis: a string or `None` (an absent
axis reads as `None` through `dict.get(key, None)`). -/
inductive PyVal where
  | str (s : String)
  | pynone
deriving DecidableEq

/-- A `Variant` (engine.py): its keyword axes (the tool dict plays no role in
the claims about registration and matching). -/
structure Variant where
  keywords : List (String × PyVal)
deriving DecidableEq

/-- A criterion value handed to `Variant.matches`: a single value (the string
`"all"` being the any-non-absent sentinel) or a list/tuple of values. -/
inductive CritVal where
  | val (v : PyVal)
  | vlist (vs : List PyVal)
deriving DecidableEq

/-- A criteria mapping (the `keywords` dict of `matches`/`findVariant`). -/
abbrev Criteria := List (String × CritVal)

/-- `Variant.matches(**keywords)` (engine.py lines 53-73): every criterion
must be satisfied by the variant's value on that axis. -/
def Variant.matches (v : Variant) (criteria : Criteria) : Bool :=
  criteria.all fun kc =>
    let variantValue := (lookupA v.keywords kc.1).getD PyVal.pynone
    match kc.2 with
    | .vlist vs => vs.any (fun x => variantValue = x)
    | .val x =>
      (decide (x = PyVal.str "all") && decide (variantValue ≠ PyVal.pynone)) ||
        decide (variantValue = x)

/-- The engine's variant registry: `_variants` (insertion-ordered, keyed by
the frozenset of keyword pairs) and `defaultVariants`. -/
structure VariantRegistry where
  variants : List (List (String × PyVal) × Variant)
  defaults : List Variant
deriving DecidableEq

/-- Equality of two frozensets of keyword pairs (mutual containment). -/
def sameKey (a b : List (String × PyVal)) : Bool :=
  a.all (fun x => decide (x ∈ b)) && b.all (fun x => decide (x ∈ a))

/-- `Engine.addVariant(variant, default)` (engine.py lines 108-124): `KeyError`
if the frozenset of keyword pairs is already registered, otherwise insert. -/
def Engine.addVariant (reg : VariantRegistry) (v : Variant) (default : Bool) :
    Except Unit VariantRegistry :=
  if reg.variants.any (fun e => sameKey e.1 v.keywords) then .error ()
  else
    .ok { variants := reg.variants ++ [(v.keywords, v)],
          defaults := if default then reg.defaults ++ [v] else reg.defaults }

/-- `Engine.findAllVariants(keywords)` (engine.py lines 126-131). -/
def Engine.findAllVariants (reg : VariantRegistry) (criteria : Criteria) :
    List Variant :=
  (reg.variants.map Prod.snd).filter (fun v => v.matches criteria)

/-- The two `LookupError`s of `Engine.findVariant`. -/
inductive FindErr where
  | noSuchVariant
  | ambiguousVariant
deriving DecidableEq

/-- The base-variant filter inside `Engine.findVariant`: every axis of the
candidate that the criteria do not name must equal the base's value. -/
def Engine.agreesWithBase (base : Variant) (criteria : Criteria)
    (v : Variant) : Bool :=
  v.keywords.all fun kv =>
    (lookupA criteria kv.1).isSome ||
      decide (kv.2 = (lookupA base.keywords kv.1).getD PyVal.pynone)

/-- `Engine.findVariant(keywords, baseVariant)` (engine.py lines 133-166). -/
def Engine.findVariant (reg : VariantRegistry) (criteria : Criteria)
    (base : Option Variant) : Except FindErr Variant :=
  let results :=
    match base with
    | none => Engine.findAllVariants reg criteria
    | some b =>
      (Engine.findAllVariants reg criteria).filter
        (Engine.agreesWithBase b criteria)
  match results with
  | [] => .error .noSuchVariant
  | [v] => .ok v
  | _ => .error .ambiguousVariant

/-- The shared state of one root script's inclusion tree: the `_included` dict
all `Script`s of the tree share (its key set) and, for the proofs, the ordered
log of script bodies actually executed. -/
structure ScriptState where
  included : List String
  execLog : List String
deriving DecidableEq

/-- `Script.include(path)` (engine.py lines 660-679) together with the body
execution it triggers: a path already in the shared set returns immediately;
otherwise the path is recorded, its body executed (each statement of a body is
itself an `include`), with a fuel bound on the recursion depth. -/
def Script.include (bodies : List (String × List String)) :
    Nat → String → ScriptState → ScriptState
  | 0, _, st => st
  | fuel + 1, path, st =>
    if path ∈ st.included then st
    else
      let st1 : ScriptState :=
        ⟨st.included ++ [path], st.execLog ++ [path]⟩
      ((lookupA bodies path).getD []).foldl
        (fun s p => Script.include bodies fuel p s) st1

/-- The top-level names class statements define in engine.py (a `from
cake.engine import X` resolves against these). -/
def engineModuleNames : List String :=
  ["BuildError", "Variant", "Engine", "DependencyInfo", "Script"]

/-- The parameter names `DependencyInfo.__init__` accepts besides `self`
(engine.py line 515). -/
def dependencyInfoCtorParams : List String := ["targets", "args"]

/-- The keyword arguments shell.py passes when constructing the new
`DependencyInfo` on its success path (shell.py lines 61-68). -/
def shellCtorKwargs : List String := ["targets", "args", "dependencies"]

/-- The args value shell.py builds: `buildArgs = (args, sourcePaths)`. -/
abbrev ShellArgs := List String × List String

/-- How the operation of a `ShellTool.run` task ends. -/
inductive SpawnResult where
  | earlyUpToDate
  | crashed
  | raisedLaunchFail
  | raisedExitNonzero
  | raisedNameErrorFileInfo
  | raisedCtorTypeError
  | finishedNoTargets
  | storedNewRecord
deriving DecidableEq

/-- The `spawnProcess` closure of `ShellTool.run` (shell.py lines 21-70),
with the process itself abstracted by `launchOk` and `exitCode`.  The
dependency check is guarded by `try/except EnvironmentError`; the success
path would construct `DependencyInfo(targets=[FileInfo(...)], args=...,
dependencies=[...])`, whose faithful completion is impossible: `FileInfo` is
not a name engine.py defines, and `dependencies` is not a parameter of
`DependencyInfo.__init__`, which the definition checks explicitly. -/
def ShellTool.spawnProcess (w : World ShellArgs) (st : EngineState ShellArgs)
    (cmdArgs : List String) (targets : List String)
    (sourcePaths : List String) (launchOk : Bool) (exitCode : Int) :
    SpawnResult × World ShellArgs × EngineState ShellArgs :=
  let buildArgs : ShellArgs := (cmdArgs, sourcePaths)
  let afterCheck : SpawnResult ⊕ EngineState ShellArgs :=
    match targets with
    | [] => .inr st
    | t0 :: _ =>
      if targets.all (fun t => isFile w t) then
        match Engine.getDependencyInfo w st t0 with
        | .error _ => .inr st
        | .ok (old, st1) =>
          match DependencyInfo.isUpToDate w st1 old buildArgs with
          | none => .inl .crashed
          | some (true, _) => .inl .earlyUpToDate
          | some (false, st2) => .inr st2
      else .inr st
  match afterCheck with
  | .inl r => (r, w, st)
  | .inr st' =>
    if !launchOk then (.raisedLaunchFail, w, st')
    else if exitCode ≠ 0 then (.raisedExitNonzero, w, st')
    else
      match targets with
      | [] => (.finishedNoTargets, w, st')
      | _ :: _ =>
        if "FileInfo" ∈ engineModuleNames then
          if shellCtorKwargs.all (fun k => decide (k ∈ dependencyInfoCtorParams)) then
            (.storedNewRecord, w, st')
          else (.raisedCtorTypeError, w, st')
        else (.raisedNameErrorFileInfo, w, st')

/-! Spec-side definitions: these follow the wording of the specification, to
be compared with the source-side definitions above. -/

/-- The timestamp the engine would observe for a path, written statelessly
from the spec's wording: the cached stamp if one is cached, else the stamp the
filesystem reports, else nothing. -/
def tsView (w : World α) (st : EngineState α) (p : String) : Option Int :=
  match lookupA st.timestampCache p with
  | some t => some t
  | none => (lookupA w.files p).map FileData.mtime

/-- Spec-side dependency scan: the reason of the first dependency whose
current timestamp differs from the recorded one, a failing lookup being
treated as changed and reported as the file no longer existing. -/
def depReasonSpec (w : World α) (st : EngineState α) :
    List (String × Int) → Option String
  | [] => none
  | (p, ts) :: rest =>
    match tsView w st p with
    | none => some ("\x27" ++ p ++ "\x27 no longer exists")
    | some t =>
      if t ≠ ts then some ("\x27" ++ p ++ "\x27 has changed since last build")
      else depReasonSpec w st rest

/-- The staleness check as the claim states it: the conditions are evaluated
in a fixed order and the first one that fires supplies the reason — record
missing or unreadable; version differing from the schema version; the
`forceBuild` flag; args differing; a listed target missing; a dependency
changed (a failing lookup counting as changed); otherwise the record paired
with no reason. -/
def checkDependencyInfoSpec (reprA : α → String) (w : World α)
    (st : EngineState α) (targetPath : String) (args : α) :
    Option (Option (DependencyInfo α) × Option String) :=
  match Engine.getDependencyInfo w st targetPath with
  | .error _ =>
    some (none, some ("\x27" ++ targetPath ++ ".dep\x27 doesn\x27t exist"))
  | .ok (di, _) =>
    if di.version ≠ DependencyInfo.VERSION then
      some (none, some ("\x27" ++ targetPath ++ ".dep\x27 version has changed"))
    else if st.forceBuild then
      some (some di, some "rebuild has been forced")
    else if args ≠ di.args then
      some (some di,
        some ("\x27" ++ reprA args ++ "\x27 != \x27" ++ reprA di.args ++ "\x27"))
    else
      match di.targets.find? (fun t => !(isFile w t)) with
      | some t => some (some di, some ("\x27" ++ t ++ "\x27 doesn\x27t exist"))
      | none =>
        match di.depPaths, di.depTimestamps with
        | some paths, some timestamps =>
          if paths.length = timestamps.length then
            some (some di, depReasonSpec w st (paths.zip timestamps))
          else none
        | _, _ => none

/-- Spec-side candidate predicate for `findVariant`: the variant matches the
criteria and, when a base is supplied, every axis the variant has that the
criteria do not name carries the base's value for that axis. -/
def isCandidate (criteria : Criteria) (base : Option Variant)
    (v : Variant) : Bool :=
  v.matches criteria &&
    (match base with
     | none => true
     | some b =>
       v.keywords.all fun kv =>
         (lookupA criteria kv.1).isSome ||
           decide (kv.2 = (lookupA b.keywords kv.1).getD PyVal.pynone))

/-- The registered candidates of a `findVariant` query, in registry order. -/
def candidatesOf (reg : VariantRegistry) (criteria : Criteria)
    (base : Option Variant) : List Variant :=
  (reg.variants.map Prod.snd).filter (isCandidate criteria base)

/-- Spec-side digest stream of `calculateDigest`: each target path in order,
then the serialized args, then each dependency path followed by the digest of
that dependency's current file contents. -/
def digestStreamSpec (h : List Nat → List Nat) (reprA : α → String)
    (w : World α) (di : DependencyInfo α) (paths : List String) : List Nat :=
  (di.targets.map encodeStr).flatten ++ encodeStr (reprA di.args) ++
    (paths.map fun p =>
      encodeStr p ++ h (((lookupA w.files p).map FileData.content).getD [])).flatten

/-- Coherence of the timestamp cache with the filesystem: every cached stamp
is the stamp of a file that still exists. -/
def tsCacheCoherent (w : World α) (st : EngineState α) : Prop :=
  ∀ p t, lookupA st.timestampCache p = some t →
    ∃ fd, lookupA w.files p = some fd ∧ fd.mtime = t

/-- Coherence of the digest cache with the filesystem: an entry keyed by a
path's current stamp holds the digest of that path's current contents. -/
def digestCacheCoherent (h : List Nat → List Nat) (w : World α)
    (st : EngineState α) : Prop :=
  ∀ p fd d, lookupA w.files p = some fd →
    lookupA st.digestCache (p, fd.mtime) = some d → d = h fd.content

/-- Coherence of a record's stored digests: a stored digest whose recorded
timestamp still is the file's current stamp is the digest of the file's
current contents. -/
def DependencyInfo.digestsCoherent (h : List Nat → List Nat) (w : World α)
    (di : DependencyInfo α) : Prop :=
  ∀ paths timestamps digests, di.depPaths = some paths →
    di.depTimestamps = some timestamps → di.depDigests = some digests →
    ∀ p t d fd, (p, t, d) ∈ paths.zip (timestamps.zip digests) →
      lookupA w.files p = some fd → fd.mtime = t → d = h fd.content

/-- The invariant of a script-inclusion state: no script body has run twice,
and everything that ran is in the shared included set. -/
def ScriptState.wellFormed (st : ScriptState) : Prop :=
  (∀ p, st.execLog.count p ≤ 1) ∧ ∀ p ∈ st.execLog, p ∈ st.included

/-! Concrete instances used by the witnesses and counterexamples. -/

/-- A current-version record for target `"t"` with no dependencies. -/
def exDi : DependencyInfo (List String) := ⟨3, ["t"], [], some [], some [], none⟩

/-- A world where `"t"` exists and its record is stored. -/
def exW : World (List String) :=
  ⟨[("t", ⟨5, [0]⟩)], [("t.dep", Blob.wellFormed exDi)]⟩

/-- Fresh engine state with the `forceBuild` flag set. -/
def exStF : EngineState (List String) := ⟨true, [], [], []⟩

/-- `exStF` after `getDependencyInfo` cached `exDi`. -/
def exStF' : EngineState (List String) := ⟨true, [], [], [("t", exDi)]⟩

/-- A world whose stored blob for `"t"` unpickles to a non-record value. -/
def exWBad : World (List String) := ⟨[], [("t.dep", Blob.notDepInfo)]⟩

/-- Fresh engine state with `forceBuild` clear. -/
def exSt0 : EngineState (List String) := ⟨false, [], [], []⟩

/-- A world with the single dependency file `"s"`. -/
def exW4 : World (List String) := ⟨[("s", ⟨7, [1]⟩)], []⟩

/-- A record over `"s"` whose stored digest `[99]` is not the digest of the
current contents of `"s"`, though its recorded timestamp matches. -/
def exDi4a : DependencyInfo (List String) :=
  ⟨3, ["t"], [], some ["s"], some [7], some [[99]]⟩

/-- A record over `"s"` identical to `exDi4a` in targets, args and `depPaths`
but carrying no stored digests. -/
def exDi4b : DependencyInfo (List String) :=
  ⟨3, ["t"], [], some ["s"], some [9], none⟩

/-- Like `exDi4b` but with the other recorded timestamp: used to witness
digest stability across records whose `depTimestamps` differ. -/
def exDi4c : DependencyInfo (List String) :=
  ⟨3, ["t"], [], some ["s"], some [7], none⟩

/-- A multi-target record used for the store/load round trip. -/
def exDi5 : DependencyInfo (List String) :=
  ⟨3, ["o1", "o2"], ["x"], some ["s"], some [7], none⟩

/-- Script bodies with a diamond (and even a cycle) of inclusions. -/
def exBodies : List (String × List String) :=
  [("a", ["b", "c"]), ("b", ["c"]), ("c", ["a"])]

/-- A win/debug variant. -/
def vWin : Variant := ⟨[("platform", .str "win"), ("mode", .str "debug")]⟩

/-- A mac/release variant. -/
def vMac : Variant := ⟨[("platform", .str "mac"), ("mode", .str "release")]⟩

/-- The keyword pairs of `vWin` listed in the other order: the same frozen
set, hence a duplicate registration. -/
def vWinReordered : Variant :=
  ⟨[("mode", .str "debug"), ("platform", .str "win")]⟩

/-- A linux/debug variant, distinct from both registered ones. -/
def vLinux : Variant := ⟨[("platform", .str "linux"), ("mode", .str "debug")]⟩

/-- A registry holding `vWin` and `vMac`. -/
def exReg : VariantRegistry :=
  ⟨[(vWin.keywords, vWin), (vMac.keywords, vMac)], []⟩

/-! Helper lemmas. -/

@[simp] theorem lookupA_nil {κ β : Type} [DecidableEq κ] (k : κ) :
    lookupA ([] : List (κ × β)) k = none := rfl

@[simp] theorem lookupA_cons {κ β : Type} [DecidableEq κ] (k k' : κ) (v : β)
    (l : List (κ × β)) :
    lookupA ((k, v) :: l) k' = if k' = k then some v else lookupA l k' := rfl

omit [DecidableEq α] in
theorem Engine.getDependencyInfo_caches (w : World α) (st st1 : EngineState α)
    (tp : String) (di : DependencyInfo α)
    (h : Engine.getDependencyInfo w st tp = .ok (di, st1)) :
    st1.forceBuild = st.forceBuild ∧ st1.timestampCache = st.timestampCache ∧
      st1.digestCache = st.digestCache := by
  unfold Engine.getDependencyInfo at h
  cases hc : lookupA st.depInfoCache tp with
  | some d =>
    simp only [hc] at h
    obtain ⟨-, h2⟩ := Prod.mk.injEq .. ▸ Except.ok.inj h
    subst h2
    exact ⟨rfl, rfl, rfl⟩
  | none =>
    simp only [hc] at h
    cases hd : lookupA w.deps (tp ++ ".dep") with
    | none => simp [hd] at h
    | some b =>
      cases b with
      | notDepInfo => simp [hd] at h
      | wellFormed d =>
        simp only [hd] at h
        obtain ⟨-, h2⟩ := Prod.mk.injEq .. ▸ Except.ok.inj h
        subst h2
        exact ⟨rfl, rfl, rfl⟩

omit [DecidableEq α] in
theorem tsView_eq_of_cacheEq (w : World α) (st st1 : EngineState α)
    (h : st1.timestampCache = st.timestampCache) (q : String) :
    tsView w st1 q = tsView w st q := by
  unfold tsView
  rw [h]

omit [DecidableEq α] in
theorem Engine.getTimestamp_of_tsView_none (w : World α) (st : EngineState α)
    (p : String) (h : tsView w st p = none) :
    Engine.getTimestamp w st p = .error () := by
  unfold tsView at h
  unfold Engine.getTimestamp
  cases hc : lookupA st.timestampCache p with
  | some t => simp [hc] at h
  | none =>
    simp only [hc] at h ⊢
    cases hf : lookupA w.files p with
    | some fd => simp [hf] at h
    | none => simp [hf]

omit [DecidableEq α] in
theorem Engine.getTimestamp_of_tsView_some (w : World α) (st : EngineState α)
    (p : String) (t : Int) (h : tsView w st p = some t) :
    ∃ st', Engine.getTimestamp w st p = .ok (t, st') ∧
      (∀ q, tsView w st' q = tsView w st q) ∧
      st'.forceBuild = st.forceBuild ∧ st'.digestCache = st.digestCache ∧
      st'.depInfoCache = st.depInfoCache := by
  unfold tsView at h
  cases hc : lookupA st.timestampCache p with
  | some t' =>
    simp only [hc] at h
    obtain rfl : t' = t := Option.some.inj h
    refine ⟨st, ?_, fun _ => rfl, rfl, rfl, rfl⟩
    unfold Engine.getTimestamp
    simp [hc]
  | none =>
    simp only [hc] at h
    cases hf : lookupA w.files p with
    | none => simp [hf] at h
    | some fd =>
      simp only [hf, Option.map] at h
      obtain rfl : fd.mtime = t := Option.some.inj h
      refine ⟨{ st with timestampCache := (p, fd.mtime) :: st.timestampCache },
        ?_, fun q => ?_, rfl, rfl, rfl⟩
      · unfold Engine.getTimestamp
        simp [hc, hf]
      · unfold tsView
        by_cases hq : q = p
        · subst hq
          simp [hc, hf]
        · simp [lookupA_cons, hq, hc]

omit [DecidableEq α] in
theorem Engine.scanDeps_spec (w : World α) :
    ∀ (l : List (String × Int)) (st st1 : EngineState α),
      (∀ q, tsView w st1 q = tsView w st q) →
      (Engine.scanDeps w l st1).1 = depReasonSpec w st l := by
  intro l
  induction l with
  | nil => intro st st1 _; rfl
  | cons hd tl ih =>
    intro st st1 hagree
    obtain ⟨p, ts⟩ := hd
    cases hv : tsView w st p with
    | none =>
      have h1 := Engine.getTimestamp_of_tsView_none w st1 p (by rw [hagree, hv])
      simp [Engine.scanDeps, depReasonSpec, hv, h1]
    | some t =>
      obtain ⟨st', hok, hag', -⟩ :=
        Engine.getTimestamp_of_tsView_some w st1 p t (by rw [hagree, hv])
      by_cases hts : t = ts
      · subst hts
        simp only [Engine.scanDeps, depReasonSpec, hv, hok, ne_eq,
          not_true_eq_false, if_false, ite_false]
        exact ih st st' (fun q => (hag' q).trans (hagree q))
      · simp [Engine.scanDeps, depReasonSpec, hv, hok, hts]

omit [DecidableEq α] in
theorem Engine.scanDepsB_eq_scanDeps (w : World α) :
    ∀ (l : List (String × Int)) (st : EngineState α),
      Engine.scanDepsB w l st =
        ((Engine.scanDeps w l st).1.isNone, (Engine.scanDeps w l st).2) := by
  intro l
  induction l with
  | nil => intro st; rfl
  | cons hd tl ih =>
    intro st
    obtain ⟨p, ts⟩ := hd
    cases hok : Engine.getTimestamp w st p with
    | error e => simp [Engine.scanDeps, Engine.scanDepsB, hok]
    | ok r =>
      obtain ⟨t, st1⟩ := r
      by_cases hts : t = ts
      · subst hts
        simp only [Engine.scanDeps, Engine.scanDepsB, hok, ne_eq,
          not_true_eq_false, ite_false]
        exact ih st1
      · simp [Engine.scanDeps, Engine.scanDepsB, hok, hts]

/-! Claim C2. -/

/-- C2: `Engine.checkDependencyInfo(targetPath, args)` evaluates its staleness
conditions in a fixed order and returns the reason of the first condition that
fires — record missing or unreadable; record version differing from the
schema version; the `forceBuild` flag ("rebuild has been forced"); args
differing from the recorded args; a listed target file missing; a dependency
whose current timestamp differs from the recorded one (a failing lookup being
treated as changed and reported as the file no longer existing) — and the
record paired with reason `None` when no condition fires. -/
theorem checkDependencyInfo_fires_first_reason (reprA : α → String)
    (w : World α) (st : EngineState α) (targetPath : String) (args : α) :
    (Engine.checkDependencyInfo reprA w st targetPath args).map Prod.fst =
      checkDependencyInfoSpec reprA w st targetPath args := by
  unfold Engine.checkDependencyInfo checkDependencyInfoSpec
  cases hg : Engine.getDependencyInfo w st targetPath with
  | error e => rfl
  | ok r =>
    obtain ⟨di, st1⟩ := r
    obtain ⟨hforce, htsc, -⟩ :=
      Engine.getDependencyInfo_caches w st st1 targetPath di hg
    dsimp only
    rw [hforce]
    by_cases hv : di.version ≠ DependencyInfo.VERSION
    · rw [if_pos hv, if_pos hv]
      rfl
    · rw [if_neg hv, if_neg hv]
      by_cases hf : st.forceBuild = true
      · rw [if_pos hf, if_pos hf]
        rfl
      · rw [if_neg hf, if_neg hf]
        by_cases ha : args ≠ di.args
        · rw [if_pos ha, if_pos ha]
          rfl
        · rw [if_neg ha, if_neg ha]
          cases hfd : di.targets.find? (fun t => !(isFile w t)) with
          | some t => rfl
          | none =>
            dsimp only
            cases hp : di.depPaths with
            | none => rfl
            | some paths =>
              cases ht : di.depTimestamps with
              | none => rfl
              | some timestamps =>
                dsimp only
                by_cases hlen : paths.length = timestamps.length
                · rw [if_pos hlen, if_pos hlen]
                  have hscan := Engine.scanDeps_spec w (paths.zip timestamps) st st1
                    (tsView_eq_of_cacheEq w st st1 htsc)
                  simp [hscan]
                · rw [if_neg hlen, if_neg hlen]
                  rfl

/-! Claim C1. -/

/-- C1 counterexample: with `forceBuild` set, the record for `"t"` exists and
`DependencyInfo.isUpToDate` reports up to date, yet `checkDependencyInfo`
returns the non-`None` reason "rebuild has been forced" — so the claimed
unconditional equivalence of the two staleness code paths is false. -/
theorem check_none_iff_upToDate_cex :
    ¬ ((∃ r st', Engine.checkDependencyInfo (fun _ => "") exW exStF "t"
          ([] : List String) = some ((r, none), st')) ↔
       (∃ di st1 st2, Engine.getDependencyInfo exW exStF "t" = .ok (di, st1) ∧
          DependencyInfo.isUpToDate exW st1 di [] = some (true, st2))) := by
  intro hiff
  have hR : ∃ di st1 st2, Engine.getDependencyInfo exW exStF "t" = .ok (di, st1) ∧
      DependencyInfo.isUpToDate exW st1 di [] = some (true, st2) :=
    ⟨exDi, exStF', exStF', rfl, rfl⟩
  obtain ⟨r, st', hc⟩ := hiff.mpr hR
  have hval : Engine.checkDependencyInfo (fun _ => "") exW exStF "t"
      ([] : List String) =
      some ((some exDi, some "rebuild has been forced"), exStF') := rfl
  rw [hval] at hc
  simp at hc

/-- C1 (amended): when the `forceBuild` flag is clear, the two staleness code
paths agree — `Engine.checkDependencyInfo` returns a `None` reason exactly
when the record for the target exists and `DependencyInfo.isUpToDate` on that
record returns `True`.  (With the flag set, `checkDependencyInfo` reports
stale while `isUpToDate`, which never consults the flag, can still report up
to date.) -/
theorem check_none_iff_upToDate (reprA : α → String) (w : World α)
    (st : EngineState α) (tp : String) (args : α)
    (hforce : st.forceBuild = false) :
    (∃ r st', Engine.checkDependencyInfo reprA w st tp args =
        some ((r, none), st')) ↔
    (∃ di st1 st2, Engine.getDependencyInfo w st tp = .ok (di, st1) ∧
      DependencyInfo.isUpToDate w st1 di args = some (true, st2)) := by
  cases hg : Engine.getDependencyInfo w st tp with
  | error e =>
    constructor
    · rintro ⟨r, st', hc⟩
      unfold Engine.checkDependencyInfo at hc
      rw [hg] at hc
      dsimp only at hc
      simp at hc
    · rintro ⟨di, st1, st2, hok, -⟩
      exact absurd hok (by simp)
  | ok r =>
    obtain ⟨di, st1⟩ := r
    obtain ⟨hforce1, -, -⟩ :=
      Engine.getDependencyInfo_caches w st st1 tp di hg
    rw [hforce] at hforce1
    have hRHS : (∃ di' st1' st2,
        (Except.ok (di, st1) : Except EnvErr (DependencyInfo α × EngineState α)) =
          .ok (di', st1') ∧
        DependencyInfo.isUpToDate w st1' di' args = some (true, st2)) ↔
        (∃ st2, DependencyInfo.isUpToDate w st1 di args = some (true, st2)) := by
      constructor
      · rintro ⟨di', st1', st2, hok, hup⟩
        obtain ⟨h1, h2⟩ := Prod.mk.injEq .. ▸ Except.ok.inj hok
        subst h1
        subst h2
        exact ⟨st2, hup⟩
      · rintro ⟨st2, hup⟩
        exact ⟨di, st1, st2, rfl, hup⟩
    rw [hRHS]
    unfold Engine.checkDependencyInfo DependencyInfo.isUpToDate
    rw [hg]
    dsimp only
    by_cases hv : di.version ≠ DependencyInfo.VERSION
    · rw [if_pos hv, if_pos hv]
      simp
    · rw [if_neg hv, if_neg hv]
      rw [if_neg (show ¬(st1.forceBuild = true) by simp [hforce1])]
      by_cases ha : args ≠ di.args
      · rw [if_pos ha, if_pos ha]
        simp
      · rw [if_neg ha, if_neg ha]
        cases hfd : di.targets.find? (fun t => !(isFile w t)) with
        | some t => simp
        | none =>
          dsimp only
          simp only [Option.isSome_none, Bool.false_eq_true, ite_false]
          cases hp : di.depPaths with
          | none => simp
          | some paths =>
            cases ht : di.depTimestamps with
            | none => simp
            | some timestamps =>
              dsimp only
              by_cases hlen : paths.length = timestamps.length
              · rw [if_pos hlen, if_pos hlen]
                rw [Engine.scanDepsB_eq_scanDeps w (paths.zip timestamps) st1]
                constructor
                · rintro ⟨r', st', hsome⟩
                  simp only [Option.some.injEq, Prod.mk.injEq] at hsome
                  obtain ⟨⟨-, hnone⟩, -⟩ := hsome
                  exact ⟨(Engine.scanDeps w (paths.zip timestamps) st1).2,
                    by simp [hnone]⟩
                · rintro ⟨st2, hup⟩
                  simp only [Option.some.injEq, Prod.mk.injEq] at hup
                  obtain ⟨htrue, -⟩ := hup
                  refine ⟨some di,
                    (Engine.scanDeps w (paths.zip timestamps) st1).2, ?_⟩
                  simp [Option.isNone_iff_eq_none.mp htrue]
              · rw [if_neg hlen, if_neg hlen]
                simp

/-- C1 witness: the amended equivalence applied at the concrete no-force
state: both sides hold for the stored up-to-date record of `"t"`. -/
theorem check_none_iff_upToDate_witness :
    (⟨false, [], [], []⟩ : EngineState (List String)).forceBuild = false ∧
    (∃ r st', Engine.checkDependencyInfo (fun _ => "") exW
        ⟨false, [], [], []⟩ "t" ([] : List String) = some ((r, none), st')) := by
  refine ⟨rfl, ?_⟩
  exact (check_none_iff_upToDate (fun _ => "") exW ⟨false, [], [], []⟩ "t"
    ([] : List String) rfl).mpr
    ⟨exDi, ⟨false, [], [], [("t", exDi)]⟩, ⟨false, [], [], [("t", exDi)]⟩, rfl, rfl⟩

/-! Claim C3. -/

/-- C3 counterexample: `DependencyInfo.isUpToDate` never consults the
`forceBuild` flag — with the flag set it still reports up to date for an
unchanged record, refuting "no dependency check reports up to date while the
flag is set". -/
theorem forceBuild_isUpToDate_cex :
    exStF.forceBuild = true ∧
    DependencyInfo.isUpToDate exW exStF exDi ([] : List String) =
      some (true, exStF) := ⟨rfl, rfl⟩

/-- C3 (amended): when the `forceBuild` flag is set,
`Engine.checkDependencyInfo` always returns a non-`None` reason, and the
reason is "rebuild has been forced" whenever a readable current-version
record exists; `DependencyInfo.isUpToDate`, however, ignores the flag and can
still report up to date. -/
theorem checkDependencyInfo_forced (reprA : α → String) (w : World α)
    (st : EngineState α) (tp : String) (args : α)
    (hforce : st.forceBuild = true) :
    (∃ d r st', Engine.checkDependencyInfo reprA w st tp args =
        some ((d, some r), st')) ∧
    (∀ di st1, Engine.getDependencyInfo w st tp = .ok (di, st1) →
      di.version = DependencyInfo.VERSION →
      Engine.checkDependencyInfo reprA w st tp args =
        some ((some di, some "rebuild has been forced"), st1)) := by
  cases hg : Engine.getDependencyInfo w st tp with
  | error e =>
    constructor
    · refine ⟨none, "\x27" ++ tp ++ ".dep\x27 doesn\x27t exist", st, ?_⟩
      unfold Engine.checkDependencyInfo
      rw [hg]
    · intro di st1 hok
      exact absurd hok (by simp)
  | ok r =>
    obtain ⟨di, st1⟩ := r
    obtain ⟨hforce1, -, -⟩ :=
      Engine.getDependencyInfo_caches w st st1 tp di hg
    rw [hforce] at hforce1
    constructor
    · by_cases hv : di.version = DependencyInfo.VERSION
      · refine ⟨some di, "rebuild has been forced", st1, ?_⟩
        unfold Engine.checkDependencyInfo
        rw [hg]
        dsimp only
        rw [if_neg (by simp [hv]), if_pos hforce1]
      · refine ⟨none, "\x27" ++ tp ++ ".dep\x27 version has changed", st1, ?_⟩
        unfold Engine.checkDependencyInfo
        rw [hg]
        dsimp only
        rw [if_pos (by simp [hv])]
    · intro di' st1' hok hv
      obtain ⟨hdi, hst1⟩ := Prod.mk.injEq .. ▸ Except.ok.inj hok
      subst hdi
      subst hst1
      unfold Engine.checkDependencyInfo
      rw [hg]
      dsimp only
      rw [if_neg (by simp [hv]), if_pos hforce1]

/-- C3 witness: the amended statement applied at the concrete forced state:
the check on the stored record of `"t"` reports "rebuild has been forced". -/
theorem checkDependencyInfo_forced_witness :
    exStF.forceBuild = true ∧
    Engine.checkDependencyInfo (fun _ => "") exW exStF "t" ([] : List String) =
      some ((some exDi, some "rebuild has been forced"), exStF') := by
  refine ⟨rfl, ?_⟩
  exact (checkDependencyInfo_forced (fun _ => "") exW exStF "t"
    ([] : List String) rfl).2 exDi exStF' rfl rfl

/-! Claim C6. -/

/-- C6 counterexample: a stored blob that unpickles to a non-record value
makes `getDependencyInfo` raise the invalid-dependency-record error, but that
failure does not propagate out of the staleness check:
`checkDependencyInfo` catches the `EnvironmentError` and returns the
missing-record rebuild reason. -/
theorem invalid_record_cex :
    Engine.getDependencyInfo exWBad exSt0 "t" = .error .invalidDepRecord ∧
    Engine.checkDependencyInfo (fun _ => "") exWBad exSt0 "t"
      ([] : List String) =
      some ((none, some "\x27t.dep\x27 doesn\x27t exist"), exSt0) := ⟨rfl, rfl⟩

/-- C6 (amended): a blob that deserializes to a non-record value makes
`getDependencyInfo` fail with the invalid-dependency-record error, but the
failure is not fatal to a staleness check: `checkDependencyInfo` catches it
and returns the record-missing rebuild reason, the same non-fatal treatment a
missing record file and a wrong-version record get. -/
theorem invalid_record_not_fatal (reprA : α → String) (w : World α)
    (st : EngineState α) (tp : String) (args : α)
    (hmiss : lookupA st.depInfoCache tp = none)
    (hbad : lookupA w.deps (tp ++ ".dep") = some Blob.notDepInfo) :
    Engine.getDependencyInfo w st tp = .error .invalidDepRecord ∧
    Engine.checkDependencyInfo reprA w st tp args =
      some ((none, some ("\x27" ++ tp ++ ".dep\x27 doesn\x27t exist")), st) := by
  have hget : Engine.getDependencyInfo w st tp = .error .invalidDepRecord := by
    unfold Engine.getDependencyInfo
    rw [hmiss, hbad]
  refine ⟨hget, ?_⟩
  unfold Engine.checkDependencyInfo
  rw [hget]

/-! Claim C9. -/

theorem Script.include_of_mem (bodies : List (String × List String))
    (fuel : Nat) (path : String) (st : ScriptState)
    (h : path ∈ st.included) :
    Script.include bodies fuel path st = st := by
  cases fuel with
  | zero => rfl
  | succ n => simp [Script.include, h]

theorem Script.include_count_frozen (bodies : List (String × List String))
    (p : String) :
    ∀ (fuel : Nat) (q : String) (st : ScriptState), p ∈ st.included →
      (Script.include bodies fuel q st).execLog.count p = st.execLog.count p ∧
      p ∈ (Script.include bodies fuel q st).included := by
  intro fuel
  induction fuel with
  | zero => intro q st hp; exact ⟨rfl, hp⟩
  | succ n ih =>
    intro q st hp
    by_cases hq : q ∈ st.included
    · simp [Script.include, hq, hp]
    · have hpq : p ≠ q := fun h => hq (h ▸ hp)
      simp only [Script.include, if_neg hq]
      have hfold : ∀ (l : List String) (s : ScriptState), p ∈ s.included →
          ((l.foldl (fun s p' => Script.include bodies n p' s) s).execLog.count p =
            s.execLog.count p ∧
           p ∈ (l.foldl (fun s p' => Script.include bodies n p' s) s).included) := by
        intro l
        induction l with
        | nil => intro s hs; exact ⟨rfl, hs⟩
        | cons a l' ihl =>
          intro s hs
          obtain ⟨h1, h2⟩ := ih a s hs
          obtain ⟨h3, h4⟩ := ihl _ h2
          exact ⟨h3.trans h1, h4⟩
      obtain ⟨h1, h2⟩ := hfold ((lookupA bodies q).getD [])
        ⟨st.included ++ [q], st.execLog ++ [q]⟩ (by simp [hp])
      refine ⟨?_, h2⟩
      rw [h1]
      simp [List.count_append, hpq]

theorem Script.include_preserves_wf (bodies : List (String × List String)) :
    ∀ (fuel : Nat) (path : String) (st : ScriptState),
      st.wellFormed → (Script.include bodies fuel path st).wellFormed := by
  intro fuel
  induction fuel with
  | zero => intro path st h; exact h
  | succ n ih =>
    intro path st hwf
    by_cases hq : path ∈ st.included
    · simpa [Script.include, hq] using hwf
    · simp only [Script.include, if_neg hq]
      have hwf1 : (⟨st.included ++ [path], st.execLog ++ [path]⟩ :
          ScriptState).wellFormed := by
        obtain ⟨h1, h2⟩ := hwf
        have hcount0 : st.execLog.count path = 0 := by
          rw [List.count_eq_zero]
          intro hmem
          exact hq (h2 path hmem)
        constructor
        · intro p
          by_cases hp : p = path
          · subst hp
            simp [List.count_append, hcount0]
          · simpa [List.count_append, hp] using h1 p
        · intro p hp
          simp only [List.mem_append] at hp ⊢
          rcases hp with hp | hp
          · exact Or.inl (h2 p hp)
          · exact Or.inr hp
      have hfold : ∀ (l : List String) (s : ScriptState), s.wellFormed →
          (l.foldl (fun s p' => Script.include bodies n p' s) s).wellFormed := by
        intro l
        induction l with
        | nil => intro s hs; exact hs
        | cons a l' ihl => intro s hs; exact ihl _ (ih a s hs)
      exact hfold _ _ hwf1

/-- C9: within one inclusion tree (whose shared included set and execution
log satisfy the invariant), (i) including a path already in the shared set —
the root's own path included — returns the state unchanged, executing
nothing and raising nothing; (ii) after any include, every script path has
been executed at most once, diamond inclusion from sibling subtrees included;
(iii) a first include of a path records it in the shared set and executes its
body exactly once. -/
theorem include_executes_once (bodies : List (String × List String))
    (fuel : Nat) (path : String) (st : ScriptState)
    (hwf : st.wellFormed) :
    (path ∈ st.included → Script.include bodies fuel path st = st) ∧
    (∀ p, (Script.include bodies fuel path st).execLog.count p ≤ 1) ∧
    (path ∉ st.included →
      (Script.include bodies (fuel + 1) path st).execLog.count path = 1 ∧
      path ∈ (Script.include bodies (fuel + 1) path st).included) := by
  refine ⟨fun hmem => Script.include_of_mem bodies fuel path st hmem,
    fun p => (Script.include_preserves_wf bodies fuel path st hwf).1 p,
    fun hnot => ?_⟩
  simp only [Script.include, if_neg hnot]
  have hcount0 : st.execLog.count path = 0 := by
    rw [List.count_eq_zero]
    intro hmem
    exact hnot (hwf.2 path hmem)
  have hmem1 : path ∈ (⟨st.included ++ [path], st.execLog ++ [path]⟩ :
      ScriptState).included := by simp
  have hfold : ∀ (l : List String) (s : ScriptState), path ∈ s.included →
      ((l.foldl (fun s p' => Script.include bodies fuel p' s) s).execLog.count path =
        s.execLog.count path ∧
       path ∈ (l.foldl (fun s p' => Script.include bodies fuel p' s) s).included) := by
    intro l
    induction l with
    | nil => intro s hs; exact ⟨rfl, hs⟩
    | cons a l' ihl =>
      intro s hs
      obtain ⟨h1, h2⟩ := Script.include_count_frozen bodies path fuel a s hs
      obtain ⟨h3, h4⟩ := ihl _ h2
      exact ⟨h3.trans h1, h4⟩
  obtain ⟨h1, h2⟩ := hfold ((lookupA bodies path).getD [])
    ⟨st.included ++ [path], st.execLog ++ [path]⟩ hmem1
  refine ⟨?_, h2⟩
  rw [h1]
  simp [List.count_append, hcount0]

/-- C9 witness: in the concrete diamond `exBodies` (`"a"` includes `"b"` and
`"c"`, `"b"` includes `"c"`, `"c"` includes `"a"` again), starting from a
well-formed root state, a fresh include of `"a"` executes it exactly once. -/
theorem include_executes_once_witness :
    (Script.include exBodies 5 "a"
      (⟨["root"], ["root"]⟩ : ScriptState)).execLog.count "a" = 1 ∧
    "a" ∈ (Script.include exBodies 5 "a"
      (⟨["root"], ["root"]⟩ : ScriptState)).included := by
  have hwf : (⟨["root"], ["root"]⟩ : ScriptState).wellFormed := by
    constructor
    · intro p
      simpa using List.count_le_length p ["root"]
    · intro p hp
      simpa using hp
  exact (include_executes_once exBodies 4 "a" ⟨["root"], ["root"]⟩ hwf).2.2
    (by decide)

/-! Claim C10. -/

/-- C10: for every call of `ShellTool.run` with a non-empty targets list
whose spawned process exits with code 0 (the operation neither returned early
as up to date nor crashed in the dependency check, the launch succeeded, and
the exit code is 0), the operation fails with the `NameError` on `FileInfo`
before storing any dependency record: engine.py defines no `FileInfo`, and
`dependencies` is not a parameter of `DependencyInfo.__init__` either, so the
success path that records new dependency info is unreachable and the record
store is left untouched. -/
theorem shellRun_success_path_unreachable (w : World ShellArgs)
    (st : EngineState ShellArgs) (cmdArgs targets sourcePaths : List String)
    (exitCode : Int)
    (hne : targets ≠ [])
    (hexit : exitCode = 0)
    (hnoEarly : (ShellTool.spawnProcess w st cmdArgs targets sourcePaths true
      exitCode).1 ≠ SpawnResult.earlyUpToDate)
    (hnoCrash : (ShellTool.spawnProcess w st cmdArgs targets sourcePaths true
      exitCode).1 ≠ SpawnResult.crashed) :
    (ShellTool.spawnProcess w st cmdArgs targets sourcePaths true exitCode).1 =
      SpawnResult.raisedNameErrorFileInfo ∧
    (ShellTool.spawnProcess w st cmdArgs targets sourcePaths true
      exitCode).2.1 = w ∧
    "FileInfo" ∉ engineModuleNames ∧
    "dependencies" ∉ dependencyInfoCtorParams := by
  subst hexit
  refine ⟨?_, ?_, by decide, by decide⟩
  all_goals
    cases targets with
    | nil => exact absurd rfl hne
    | cons t0 ts =>
      revert hnoEarly hnoCrash
      unfold ShellTool.spawnProcess
      dsimp only
      by_cases hall : ((t0 :: ts).all fun t => isFile w t) = true
      · rw [if_pos hall]
        cases hg : Engine.getDependencyInfo w st t0 with
        | error e =>
          intro _ _
          rfl
        | ok r =>
          obtain ⟨old, st1⟩ := r
          dsimp only
          cases hup : DependencyInfo.isUpToDate w st1 old (cmdArgs, sourcePaths) with
          | none =>
            intro h1 h2
            exact absurd rfl h2
          | some r2 =>
            obtain ⟨b, st2⟩ := r2
            cases b with
            | true =>
              intro h1 h2
              exact absurd rfl h1
            | false =>
              intro _ _
              rfl
      · rw [if_neg hall]
        intro _ _
        rfl

/-- C10 witness: a concrete run over an empty world with target `"out"`,
successful launch and exit code 0: the operation raises the `FileInfo`
`NameError` and the world is unchanged. -/
theorem shellRun_success_path_unreachable_witness :
    (ShellTool.spawnProcess ⟨[], []⟩ ⟨false, [], [], []⟩ ["cc"] ["out"] []
      true 0).1 = SpawnResult.raisedNameErrorFileInfo ∧
    (ShellTool.spawnProcess ⟨[], []⟩ ⟨false, [], [], []⟩ ["cc"] ["out"] []
      true 0).2.1 = (⟨[], []⟩ : World ShellArgs) := by
  have h := shellRun_success_path_unreachable ⟨[], []⟩ ⟨false, [], [], []⟩
    ["cc"] ["out"] [] 0 (by decide) rfl (by decide) (by decide)
  exact ⟨h.1, h.2.1⟩

/-! Claim C5. -/

omit [DecidableEq α] in
theorem lookupA_foldl_insert (di : DependencyInfo α) :
    ∀ (l : List String) (c : List (String × DependencyInfo α)) (t : String),
      lookupA (l.foldl (fun c t' => (t', di) :: c) c) t =
        if t ∈ l then some di else lookupA c t := by
  intro l
  induction l with
  | nil => intro c t; simp
  | cons a l' ih =>
    intro c t
    simp only [List.foldl_cons]
    rw [ih]
    by_cases hl : t ∈ l'
    · simp [hl]
    · by_cases ha : t = a
      · subst ha
        simp [hl]
      · simp [hl, ha]

omit [DecidableEq α] in
/-- C5: for a record with a non-empty targets list, `storeDependencyInfo`
persists the serialized record at `targets[0] + ".dep"`, registers the record
in the in-memory cache under every listed target, and a subsequent
`getDependencyInfo(targets[0])` against a fresh (empty) cache returns a record
identical to the stored one (hence with identical `version`, `targets`,
`args`, `depPaths`, `depTimestamps` and `depDigests`). -/
theorem storeDependencyInfo_roundTrip (w : World α) (st stF : EngineState α)
    (di : DependencyInfo α) (t0 : String) (trest : List String)
    (htg : di.targets = t0 :: trest) (hF : stF.depInfoCache = []) :
    ∃ w1 st1, Engine.storeDependencyInfo w st di = some (w1, st1) ∧
      lookupA w1.deps (t0 ++ ".dep") = some (Blob.wellFormed di) ∧
      (∀ t ∈ di.targets, lookupA st1.depInfoCache t = some di) ∧
      ∃ st2, Engine.getDependencyInfo w1 stF t0 = .ok (di, st2) := by
  have hstore : Engine.storeDependencyInfo w st di =
      some (⟨w.files, (t0 ++ ".dep", Blob.wellFormed di) :: w.deps⟩,
        ⟨st.forceBuild, st.timestampCache, st.digestCache,
          (t0 :: trest).foldl (fun c t => (t, di) :: c) st.depInfoCache⟩) := by
    unfold Engine.storeDependencyInfo
    rw [htg]
  refine ⟨_, _, hstore, ?_, ?_, ?_⟩
  · simp
  · intro t ht
    rw [htg] at ht
    dsimp only
    rw [lookupA_foldl_insert di (t0 :: trest) st.depInfoCache t, if_pos ht]
  · refine ⟨{ stF with depInfoCache := (t0, di) :: stF.depInfoCache }, ?_⟩
    unfold Engine.getDependencyInfo
    rw [hF]
    simp

/-- C5 witness: the round trip applied to the concrete two-target record
`exDi5` stored into an empty world with a fresh cache. -/
theorem storeDependencyInfo_roundTrip_witness :
    exDi5.targets = "o1" :: ["o2"] ∧
    (∃ w1 st1,
      Engine.storeDependencyInfo (⟨[], []⟩ : World (List String)) exSt0 exDi5 =
        some (w1, st1) ∧
      lookupA w1.deps ("o1" ++ ".dep") = some (Blob.wellFormed exDi5) ∧
      (∀ t ∈ exDi5.targets, lookupA st1.depInfoCache t = some exDi5) ∧
      ∃ st2, Engine.getDependencyInfo w1 exSt0 "o1" = .ok (exDi5, st2)) :=
  ⟨rfl, storeDependencyInfo_roundTrip ⟨[], []⟩ exSt0 exSt0 exDi5 "o1" ["o2"]
    rfl rfl⟩

/-! Claim C7. -/

theorem findVariant_results (reg : VariantRegistry) (criteria : Criteria) :
    ∀ base : Option Variant,
      (match base with
       | none => Engine.findAllVariants reg criteria
       | some b =>
         (Engine.findAllVariants reg criteria).filter
           (Engine.agreesWithBase b criteria)) =
        candidatesOf reg criteria base := by
  intro base
  cases base with
  | none =>
    dsimp only
    unfold Engine.findAllVariants candidatesOf
    apply List.filter_congr
    intro v _
    unfold isCandidate
    simp
  | some b =>
    dsimp only
    unfold Engine.findAllVariants candidatesOf
    rw [List.filter_filter]
    apply List.filter_congr
    intro v _
    unfold isCandidate Engine.agreesWithBase
    dsimp only
    rw [Bool.and_comm]

/-- C7: `findVariant(criteria, base)` returns the unique registered variant
matching the criteria — failing with the ambiguous-variant error when more
than one registered variant matches and with the no-such-variant error when
none does — where, when a base is supplied, a variant is a candidate only if
every axis it has that is not named in the criteria carries the base's value
for that axis. -/
theorem findVariant_unique_match (reg : VariantRegistry) (criteria : Criteria)
    (base : Option Variant) :
    (Engine.findVariant reg criteria base = .error .noSuchVariant ↔
      candidatesOf reg criteria base = []) ∧
    (Engine.findVariant reg criteria base = .error .ambiguousVariant ↔
      2 ≤ (candidatesOf reg criteria base).length) ∧
    (∀ v, Engine.findVariant reg criteria base = .ok v ↔
      candidatesOf reg criteria base = [v]) := by
  unfold Engine.findVariant
  rw [findVariant_results reg criteria base]
  cases hres : candidatesOf reg criteria base with
  | nil => simp
  | cons v1 rest =>
    cases rest with
    | nil => simp [eq_comm]
    | cons v2 rest' => simp

/-! Claim C8. -/

/-- C8: `addVariant` of a variant whose frozen set of keyword pairs equals an
already-registered one fails with the duplicate-variant error (and produces
no updated registry), while `addVariant` of a variant with a distinct
keyword-pair set succeeds, appends the variant to the registry, and the
variant subsequently appears in `findAllVariants` for every criteria it
matches. -/
theorem addVariant_duplicate_check (reg : VariantRegistry) (v : Variant)
    (d : Bool) :
    (reg.variants.any (fun e => sameKey e.1 v.keywords) = true →
      Engine.addVariant reg v d = .error ()) ∧
    (reg.variants.any (fun e => sameKey e.1 v.keywords) = false →
      ∃ reg', Engine.addVariant reg v d = .ok reg' ∧
        reg'.variants = reg.variants ++ [(v.keywords, v)] ∧
        ∀ criteria, v.matches criteria = true →
          v ∈ Engine.findAllVariants reg' criteria) := by
  constructor
  · intro hdup
    unfold Engine.addVariant
    rw [if_pos hdup]
  · intro hnodup
    refine ⟨⟨reg.variants ++ [(v.keywords, v)],
        if d then reg.defaults ++ [v] else reg.defaults⟩, ?_, rfl, ?_⟩
    · unfold Engine.addVariant
      rw [if_neg (by simp [hnodup])]
    · intro criteria hm
      unfold Engine.findAllVariants
      refine List.mem_filter.mpr ⟨?_, hm⟩
      simp

/-- C8 witness: registering `vWinReordered` (the same frozen keyword set as
the registered `vWin`, listed in another order) fails, while registering the
distinct `vLinux` succeeds and `vLinux` is then found by `findAllVariants`
for a criteria it matches. -/
theorem addVariant_duplicate_check_witness :
    Engine.addVariant exReg vWinReordered false = .error () ∧
    (∃ reg', Engine.addVariant exReg vLinux false = .ok reg' ∧
      vLinux ∈ Engine.findAllVariants reg'
        [("platform", CritVal.val (.str "linux"))]) := by
  constructor
  · exact (addVariant_duplicate_check exReg vWinReordered false).1 (by decide)
  · obtain ⟨reg', hok, -, hmem⟩ :=
      (addVariant_duplicate_check exReg vLinux false).2 (by decide)
    exact ⟨reg', hok,
      hmem [("platform", CritVal.val (.str "linux"))] (by decide)⟩

/-- C6 witness: the amended statement applied at the concrete malformed-blob
world. -/
theorem invalid_record_not_fatal_witness :
    lookupA exWBad.deps ("t" ++ ".dep") = some Blob.notDepInfo ∧
    Engine.checkDependencyInfo (fun _ => "") exWBad exSt0 "t"
      ([] : List String) =
      some ((none, some ("\x27" ++ "t" ++ ".dep\x27 doesn\x27t exist")), exSt0) := by
  refine ⟨rfl, ?_⟩
  exact (invalid_record_not_fatal (fun _ => "") exWBad exSt0 "t"
    ([] : List String) rfl rfl).2

/-! Claim C4. -/

omit [DecidableEq α] in
theorem Engine.getTimestamp_coherent (w : World α) (st : EngineState α)
    (p : String) (fd : FileData)
    (hts : tsCacheCoherent w st) (hfd : lookupA w.files p = some fd) :
    ∃ st', Engine.getTimestamp w st p = .ok (fd.mtime, st') ∧
      tsCacheCoherent w st' ∧ st'.digestCache = st.digestCache := by
  unfold Engine.getTimestamp
  cases hc : lookupA st.timestampCache p with
  | some t =>
    obtain ⟨fd', hfd', hmt⟩ := hts p t hc
    rw [hfd] at hfd'
    obtain rfl := Option.some.inj hfd'
    refine ⟨st, ?_, hts, rfl⟩
    rw [hmt]
  | none =>
    simp only [hc, hfd]
    refine ⟨_, rfl, ?_, rfl⟩
    intro q tq hq
    rw [lookupA_cons] at hq
    by_cases hqp : q = p
    · subst hqp
      rw [if_pos rfl] at hq
      exact ⟨fd, hfd, Option.some.inj hq⟩
    · rw [if_neg hqp] at hq
      exact hts q tq hq

omit [DecidableEq α] in
theorem Engine.getFileDigest_coherent (h : List Nat → List Nat) (w : World α)
    (st : EngineState α) (p : String) (fd : FileData)
    (hts : tsCacheCoherent w st) (hdg : digestCacheCoherent h w st)
    (hfd : lookupA w.files p = some fd) :
    ∃ st', Engine.getFileDigest h w st p = .ok (h fd.content, st') ∧
      tsCacheCoherent w st' ∧ digestCacheCoherent h w st' := by
  obtain ⟨st1, hok, hts1, hdgeq⟩ := Engine.getTimestamp_coherent w st p fd hts hfd
  have hdg1 : digestCacheCoherent h w st1 := by
    intro q fq dq hfq hlq
    rw [hdgeq] at hlq
    exact hdg q fq dq hfq hlq
  unfold Engine.getFileDigest
  rw [hok]
  dsimp only
  cases hl : lookupA st1.digestCache (p, fd.mtime) with
  | some d =>
    dsimp only
    obtain rfl : d = h fd.content := hdg1 p fd d hfd hl
    exact ⟨st1, rfl, hts1, hdg1⟩
  | none =>
    dsimp only
    rw [hfd]
    dsimp only
    refine ⟨_, rfl, ?_, ?_⟩
    · intro q tq hq
      exact hts1 q tq hq
    · intro q fq dq hfq hlq
      unfold Engine.updateFileDigestCache at hlq
      rw [lookupA_cons] at hlq
      by_cases hqq : (q, fq.mtime) = (p, fd.mtime)
      · rw [if_pos hqq] at hlq
        obtain ⟨hq1, hq2⟩ := Prod.mk.injEq .. ▸ hqq
        subst hq1
        rw [hfd] at hfq
        obtain rfl := Option.some.inj hfq
        exact (Option.some.inj hlq).symm
      · rw [if_neg hqq] at hlq
        exact hdg1 q fq dq hfq hlq

omit [DecidableEq α] in
theorem Engine.digestLoop_coherent (h : List Nat → List Nat) (w : World α) :
    ∀ (paths : List String) (st : EngineState α) (acc : List Nat),
      tsCacheCoherent w st → digestCacheCoherent h w st →
      (∀ p ∈ paths, (lookupA w.files p).isSome) →
      ∃ st', Engine.digestLoop h w paths st acc =
          .ok (acc ++ (paths.map fun p =>
            encodeStr p ++
              h (((lookupA w.files p).map FileData.content).getD [])).flatten,
            st') ∧
        tsCacheCoherent w st' ∧ digestCacheCoherent h w st' := by
  intro paths
  induction paths with
  | nil =>
    intro st acc hts hdg _
    exact ⟨st, by simp [Engine.digestLoop], hts, hdg⟩
  | cons p rest ih =>
    intro st acc hts hdg hpres
    obtain ⟨fd, hfd⟩ := Option.isSome_iff_exists.mp (hpres p (by simp))
    obtain ⟨st1, hok, hts1, hdg1⟩ :=
      Engine.getFileDigest_coherent h w st p fd hts hdg hfd
    obtain ⟨st', hloop, hts', hdg'⟩ := ih st1 (acc ++ encodeStr p ++ h fd.content)
      hts1 hdg1 (fun q hq => hpres q (by simp [hq]))
    refine ⟨st', ?_, hts', hdg'⟩
    unfold Engine.digestLoop
    rw [hok]
    dsimp only
    rw [hloop]
    simp [hfd, List.append_assoc]

omit [DecidableEq α] in
theorem Engine.primeLoop_timestampCache (l : List (String × Int × List Nat)) :
    ∀ st : EngineState α,
      (Engine.primeLoop l st).timestampCache = st.timestampCache := by
  induction l with
  | nil => intro st; rfl
  | cons e rest ih =>
    intro st
    obtain ⟨p, t, d⟩ := e
    exact ih _

omit [DecidableEq α] in
theorem Engine.primeLoop_coherent (h : List Nat → List Nat) (w : World α) :
    ∀ (l : List (String × Int × List Nat)) (st : EngineState α),
      digestCacheCoherent h w st →
      (∀ p t d fd, (p, t, d) ∈ l → lookupA w.files p = some fd →
        fd.mtime = t → d = h fd.content) →
      digestCacheCoherent h w (Engine.primeLoop l st) := by
  intro l
  induction l with
  | nil => intro st hdg _; exact hdg
  | cons e rest ih =>
    intro st hdg hl
    obtain ⟨p, t, d⟩ := e
    apply ih
    · intro q fq dq hfq hlq
      unfold Engine.updateFileDigestCache at hlq
      rw [lookupA_cons] at hlq
      by_cases hqq : (q, fq.mtime) = (p, t)
      · rw [if_pos hqq] at hlq
        obtain ⟨hq1, hq2⟩ := Prod.mk.injEq .. ▸ hqq
        subst hq1
        have hd : d = h fq.content := hl _ t d fq (by simp) hfq hq2
        exact (Option.some.inj hlq) ▸ hd
      · rw [if_neg hqq] at hlq
        exact hdg q fq dq hfq hlq
    · intro q t' d' fd hmem hfq hmt
      exact hl q t' d' fd (List.mem_cons_of_mem _ hmem) hfq hmt

omit [DecidableEq α] in
theorem DependencyInfo.prime_coherent (h : List Nat → List Nat) (w : World α)
    (st : EngineState α) (di : DependencyInfo α)
    (paths : List String) (tss : List Int)
    (hp : di.depPaths = some paths) (ht : di.depTimestamps = some tss)
    (hlen : tss.length = paths.length)
    (hlend : ∀ ds, di.depDigests = some ds → ds.length = paths.length)
    (hts : tsCacheCoherent w st) (hdg : digestCacheCoherent h w st)
    (hcoh : di.digestsCoherent h w) :
    ∃ st1, di.primeFileDigestCache st = some st1 ∧
      tsCacheCoherent w st1 ∧ digestCacheCoherent h w st1 := by
  unfold DependencyInfo.primeFileDigestCache
  by_cases htr : (isTruthy di.depDigests && isTruthy di.depTimestamps) = true
  · rw [if_pos htr]
    rw [Bool.and_eq_true] at htr
    obtain ⟨hd1, -⟩ := htr
    cases hds : di.depDigests with
    | none =>
      rw [hds] at hd1
      exact absurd hd1 (by simp [isTruthy])
    | some ds =>
      rw [hp, ht]
      dsimp only
      rw [if_pos ⟨hlend ds hds, hlen⟩]
      refine ⟨_, rfl, ?_, ?_⟩
      · intro q t hq
        rw [Engine.primeLoop_timestampCache] at hq
        exact hts q t hq
      · apply Engine.primeLoop_coherent h w _ st hdg
        intro p t d fd hmem hfd hmt
        exact hcoh paths tss ds hp ht hds p t d fd hmem hfd hmt
  · rw [if_neg htr]
    exact ⟨st, rfl, hts, hdg⟩

omit [DecidableEq α] in
theorem DependencyInfo.calcDigest_coherent (h : List Nat → List Nat)
    (reprA : α → String) (w : World α) (st : EngineState α)
    (di : DependencyInfo α) (paths : List String) (tss : List Int)
    (hp : di.depPaths = some paths) (ht : di.depTimestamps = some tss)
    (hlen : tss.length = paths.length)
    (hlend : ∀ ds, di.depDigests = some ds → ds.length = paths.length)
    (hpres : ∀ p ∈ paths, (lookupA w.files p).isSome)
    (hts : tsCacheCoherent w st) (hdg : digestCacheCoherent h w st)
    (hcoh : di.digestsCoherent h w) :
    ∃ st', DependencyInfo.calculateDigest h reprA w st di =
      some (.ok (h (digestStreamSpec h reprA w di paths), st')) := by
  obtain ⟨st1, hprime, hts1, hdg1⟩ :=
    DependencyInfo.prime_coherent h w st di paths tss hp ht hlen hlend hts hdg hcoh
  obtain ⟨st', hloop, -, -⟩ := Engine.digestLoop_coherent h w paths st1
    ((di.targets.map encodeStr).flatten ++ encodeStr (reprA di.args)) hts1 hdg1 hpres
  refine ⟨st', ?_⟩
  unfold DependencyInfo.calculateDigest
  rw [hprime, hp]
  dsimp only
  rw [hloop]
  rfl

/-- C4 counterexample: two records with equal targets, equal args, equal
`depPaths` and (being checked against the same filesystem) identical
dependency file contents, yet different `calculateDigest` results: `exDi4a`
carries a stored digest `[99]` that is not the digest of the current contents
of `"s"`, `primeFileDigestCache` seeds the digest cache with it, and
`getFileDigest` then returns it instead of the file-content digest — so the
digest is not always the digest of the claimed target/args/path/content
stream, and digest stability fails. -/
theorem calculateDigest_content_stable_cex :
    exDi4a.targets = exDi4b.targets ∧ exDi4a.args = exDi4b.args ∧
    exDi4a.depPaths = exDi4b.depPaths ∧
    DependencyInfo.calculateDigest (fun l => l) (fun _ => "") exW4 exSt0
      exDi4a =
      some (.ok ([116, 115, 99],
        ⟨false, [("s", 7)], [(("s", 7), [99])], []⟩)) ∧
    DependencyInfo.calculateDigest (fun l => l) (fun _ => "") exW4 exSt0
      exDi4b =
      some (.ok ([116, 115, 1],
        ⟨false, [("s", 7)], [(("s", 7), [1])], []⟩)) ∧
    ([116, 115, 99] : List Nat) ≠ [116, 115, 1] := by
  refine ⟨rfl, rfl, rfl, ?_, ?_, by decide⟩ <;> rfl

omit [DecidableEq α] in
/-- C4 (amended): provided the engine caches are coherent with the
filesystem and the record's stored digests are the digests of the current
file contents wherever the recorded timestamp still matches (and the parallel
dependency lists are well formed and every dependency file exists),
`calculateDigest` returns the digest of exactly the order-sensitive sequence:
each target path in order, the serialized args, then each dependency path
followed by its file-content digest; consequently two such records with equal
targets, equal args, equal `depPaths` and identical dependency file contents
produce the same digest even when their `depTimestamps` differ. -/
theorem calculateDigest_content_stable (h : List Nat → List Nat)
    (reprA : α → String) (w w2 : World α) (st st2 : EngineState α)
    (di di2 : DependencyInfo α) (paths : List String) (tss tss2 : List Int)
    (hp : di.depPaths = some paths) (ht : di.depTimestamps = some tss)
    (hlen : tss.length = paths.length)
    (hlend : ∀ ds, di.depDigests = some ds → ds.length = paths.length)
    (hpres : ∀ p ∈ paths, (lookupA w.files p).isSome)
    (hts : tsCacheCoherent w st) (hdg : digestCacheCoherent h w st)
    (hcoh : di.digestsCoherent h w)
    (hp2 : di2.depPaths = some paths) (ht2 : di2.depTimestamps = some tss2)
    (hlen2 : tss2.length = paths.length)
    (hlend2 : ∀ ds, di2.depDigests = some ds → ds.length = paths.length)
    (hpres2 : ∀ p ∈ paths, (lookupA w2.files p).isSome)
    (hts2 : tsCacheCoherent w2 st2) (hdg2 : digestCacheCoherent h w2 st2)
    (hcoh2 : di2.digestsCoherent h w2)
    (htg : di2.targets = di.targets) (harg : di2.args = di.args)
    (hcontent : ∀ p ∈ paths,
      (lookupA w2.files p).map FileData.content =
        (lookupA w.files p).map FileData.content) :
    (∃ st', DependencyInfo.calculateDigest h reprA w st di =
      some (.ok (h (digestStreamSpec h reprA w di paths), st'))) ∧
    (∃ st2', DependencyInfo.calculateDigest h reprA w2 st2 di2 =
      some (.ok (h (digestStreamSpec h reprA w di paths), st2'))) := by
  have hstream : digestStreamSpec h reprA w2 di2 paths =
      digestStreamSpec h reprA w di paths := by
    unfold digestStreamSpec
    rw [htg, harg]
    congr 2
    apply List.map_congr_left
    intro p hp'
    rw [hcontent p hp']
  refine ⟨DependencyInfo.calcDigest_coherent h reprA w st di paths tss
    hp ht hlen hlend hpres hts hdg hcoh, ?_⟩
  obtain ⟨st2', h2⟩ := DependencyInfo.calcDigest_coherent h reprA w2 st2 di2
    paths tss2 hp2 ht2 hlen2 hlend2 hpres2 hts2 hdg2 hcoh2
  exact ⟨st2', hstream ▸ h2⟩

/-- C4 witness: the amended statement applied to the concrete records
`exDi4c` and `exDi4b`, which differ only in their recorded `depTimestamps`
(7 vs 9), carry no stored digests, and are checked against the same one-file
world with fresh coherent caches: both digests equal the digest of the spec
stream. -/
theorem calculateDigest_content_stable_witness :
    (∃ st', DependencyInfo.calculateDigest (fun l => l) (fun _ => "") exW4
        exSt0 exDi4c =
      some (.ok ((fun l => l)
        (digestStreamSpec (fun l => l) (fun _ => "") exW4 exDi4c ["s"]), st'))) ∧
    (∃ st2', DependencyInfo.calculateDigest (fun l => l) (fun _ => "") exW4
        exSt0 exDi4b =
      some (.ok ((fun l => l)
        (digestStreamSpec (fun l => l) (fun _ => "") exW4 exDi4c ["s"]), st2'))) := by
  have hnil : ∀ {β : Type} (ds : List β),
      (none : Option (List β)) = some ds → False := by
    intro β ds hc
    exact Option.noConfusion hc
  apply calculateDigest_content_stable (fun l => l) (fun _ => "") exW4 exW4
    exSt0 exSt0 exDi4c exDi4b ["s"] [7] [9] rfl rfl rfl
  · intro ds hds
    exact absurd hds (fun hc => hnil ds hc)
  · intro p hp'
    simp only [List.mem_singleton] at hp'
    subst hp'
    rfl
  · intro p t hq
    exact absurd hq (by simp [exSt0, lookupA])
  · intro p fd d hfd hq
    exact absurd hq (by simp [exSt0, lookupA])
  · intro a b c h1 h2 h3
    exact absurd h3 (fun hc => hnil c hc)
  · rfl
  · rfl
  · rfl
  · intro ds hds
    exact absurd hds (fun hc => hnil ds hc)
  · intro p hp'
    simp only [List.mem_singleton] at hp'
    subst hp'
    rfl
  · intro p t hq
    exact absurd hq (by simp [exSt0, lookupA])
  · intro p fd d hfd hq
    exact absurd hq (by simp [exSt0, lookupA])
  · intro a b c h1 h2 h3
    exact absurd h3 (fun hc => hnil c hc)
  · rfl
  · rfl
  · intro p hp'
    rfl

end Cake
